import Mathlib

/-!
Verification development for `find_low_res_images.py`: a tool that scans a
directory tree for images, classifies each against the 4K threshold,
reports statistics, optionally deletes the low-resolution images and moves
the remaining high-resolution images to a destination directory.

The Python source is shallowly embedded: filesystem and image-library
effects are passed in as explicit oracles (a function giving each path its
readable resolution, a per-record success flag for unlink and move calls),
interactive input is an explicit list of response strings, and each
stateful loop becomes a fold over an explicit state structure.
-/

set_option autoImplicit false

namespace FindLowRes

/-- A filesystem path, as its list of components. -/
abbrev FPath := List String

/-- Parent directory of a path: everything but the last component.
Mirrors Python's `Path.parent`. -/
def parentOf (p : FPath) : FPath := p.dropLast

/-- Last component of a path. Mirrors Python's `Path.name`. -/
def fileName (p : FPath) : String := p.getLastD ""

/-- The record built for each readable image, source lines 73-78:
a dict with keys path, width, height, size. -/
structure ImageRecord where
  path : FPath
  width : Nat
  height : Nat
  size : Nat
deriving DecidableEq

/-- Source line 16: 4K width threshold. -/
def MIN_4K_WIDTH : Nat := 3840

/-- Source line 17: 4K height threshold. -/
def MIN_4K_HEIGHT : Nat := 2160

/-- Source line 20: the recognized image file extensions. -/
def IMAGE_EXTENSIONS : List String :=
  [".jpg", ".jpeg", ".png", ".gif", ".bmp", ".tiff", ".tif", ".webp", ".svg", ".ico"]

/-- Source lines 35-37: a resolution is below 4K when the width is under
3840 OR the height is under 2160. -/
def is_below_4k (width height : Nat) : Bool :=
  width < MIN_4K_WIDTH || height < MIN_4K_HEIGHT

/-- Source lines 39-41: render a resolution as a histogram key string. -/
def format_resolution (width height : Nat) : String :=
  toString width ++ "x" ++ toString height

/-- The `resolution_stats` defaultdict of source line 48, as an association
list from resolution key to count, in insertion order. -/
abbrev Histogram := List (String × Nat)

/-- Source line 71: `resolution_stats[res_key] += 1` on a defaultdict —
increment the existing entry, or append a new entry with count 1. -/
def bumpStat : Histogram → String → Histogram
  | [], k => [(k, 1)]
  | (k', n) :: rest, k =>
    if k' = k then (k', n + 1) :: rest else (k', n) :: bumpStat rest k

/-- Total of all histogram bucket counts. -/
def statSum (h : Histogram) : Nat := (h.map Prod.snd).sum

/-- The triple returned by `find_low_res_images`, source line 88. -/
structure ScanResult where
  low_res_images : List ImageRecord
  all_images : List ImageRecord
  resolution_stats : Histogram
deriving DecidableEq

/-- Loop body of source lines 63-83 for one file: read the resolution
(`readRes` is the oracle for `get_image_resolution`, returning `none` when
reading raises, source lines 26-33); on failure the file is skipped; on
success bump the histogram, append the record to `all_images`, and also to
`low_res_images` when the resolution is below 4K. `sizeOf` is the oracle
for `Path.stat().st_size`. -/
def scanStep (readRes : FPath → Option (Nat × Nat)) (sizeOfFile : FPath → Nat)
    (acc : ScanResult) (f : FPath) : ScanResult :=
  match readRes f with
  | none => acc
  | some (w, h) =>
    let r : ImageRecord := ⟨f, w, h, sizeOfFile f⟩
    { low_res_images :=
        if is_below_4k w h then acc.low_res_images ++ [r] else acc.low_res_images
      all_images := acc.all_images ++ [r]
      resolution_stats := bumpStat acc.resolution_stats (format_resolution w h) }

/-- Source lines 43-88: scan the given image files (the extension-filtered
file list of lines 54-57) and build the low-res list, the all-images list
and the resolution histogram. -/
def find_low_res_images (readRes : FPath → Option (Nat × Nat))
    (sizeOfFile : FPath → Nat) (files : List FPath) : ScanResult :=
  files.foldl (scanStep readRes sizeOfFile) ⟨[], [], []⟩

/-! ### Scanner lemmas -/

lemma scanStep_low_filter (readRes : FPath → Option (Nat × Nat))
    (sizeOfFile : FPath → Nat) (acc : ScanResult) (f : FPath)
    (h : acc.low_res_images
        = acc.all_images.filter fun r => is_below_4k r.width r.height) :
    (scanStep readRes sizeOfFile acc f).low_res_images
      = (scanStep readRes sizeOfFile acc f).all_images.filter
          fun r => is_below_4k r.width r.height := by
  cases hr : readRes f with
  | none => simpa [scanStep, hr] using h
  | some wh =>
    obtain ⟨w, hgt⟩ := wh
    by_cases hb : is_below_4k w hgt <;>
      simp [scanStep, hr, hb, List.filter_append, h]

lemma scan_foldl_low_filter (readRes : FPath → Option (Nat × Nat))
    (sizeOfFile : FPath → Nat) (files : List FPath) :
    ∀ acc : ScanResult,
      acc.low_res_images
        = acc.all_images.filter (fun r => is_below_4k r.width r.height) →
      (files.foldl (scanStep readRes sizeOfFile) acc).low_res_images
        = (files.foldl (scanStep readRes sizeOfFile) acc).all_images.filter
            (fun r => is_below_4k r.width r.height) := by
  induction files with
  | nil => intro acc h; exact h
  | cons f fs ih =>
    intro acc h
    exact ih _ (scanStep_low_filter _ _ _ _ h)

lemma statSum_bumpStat (h : Histogram) (k : String) :
    statSum (bumpStat h k) = statSum h + 1 := by
  induction h with
  | nil => simp [bumpStat, statSum]
  | cons kv rest ih =>
    obtain ⟨k', n⟩ := kv
    by_cases hk : k' = k
    · simp [bumpStat, hk, statSum]
      omega
    · simp [bumpStat, hk, statSum] at ih ⊢
      omega

lemma scanStep_invariant (readRes : FPath → Option (Nat × Nat))
    (sizeOfFile : FPath → Nat) (acc : ScanResult) (f : FPath)
    (h1 : acc.low_res_images.Sublist acc.all_images)
    (h2 : statSum acc.resolution_stats = acc.all_images.length) :
    (scanStep readRes sizeOfFile acc f).low_res_images.Sublist
        (scanStep readRes sizeOfFile acc f).all_images ∧
      statSum (scanStep readRes sizeOfFile acc f).resolution_stats
        = (scanStep readRes sizeOfFile acc f).all_images.length := by
  cases hr : readRes f with
  | none => exact ⟨by simpa [scanStep, hr] using h1, by simpa [scanStep, hr] using h2⟩
  | some wh =>
    obtain ⟨w, hgt⟩ := wh
    constructor
    · by_cases hb : is_below_4k w hgt
      · simpa [scanStep, hr, hb] using
          h1.append (List.Sublist.refl [⟨f, w, hgt, sizeOfFile f⟩])
      · simpa [scanStep, hr, hb] using
          h1.trans (List.sublist_append_left acc.all_images _)
    · simp [scanStep, hr, statSum_bumpStat, h2]

lemma scan_foldl_invariant (readRes : FPath → Option (Nat × Nat))
    (sizeOfFile : FPath → Nat) (files : List FPath) :
    ∀ acc : ScanResult,
      acc.low_res_images.Sublist acc.all_images →
      statSum acc.resolution_stats = acc.all_images.length →
      (files.foldl (scanStep readRes sizeOfFile) acc).low_res_images.Sublist
          (files.foldl (scanStep readRes sizeOfFile) acc).all_images ∧
        statSum (files.foldl (scanStep readRes sizeOfFile) acc).resolution_stats
          = (files.foldl (scanStep readRes sizeOfFile) acc).all_images.length := by
  induction files with
  | nil => intro acc h1 h2; exact ⟨h1, h2⟩
  | cons f fs ih =>
    intro acc h1 h2
    obtain ⟨h1', h2'⟩ := scanStep_invariant readRes sizeOfFile acc f h1 h2
    exact ih _ h1' h2'

lemma scan_all_sound (readRes : FPath → Option (Nat × Nat))
    (sizeOfFile : FPath → Nat) (files : List FPath) :
    ∀ acc : ScanResult,
      (∀ r ∈ acc.all_images, readRes r.path = some (r.width, r.height)) →
      ∀ r ∈ (files.foldl (scanStep readRes sizeOfFile) acc).all_images,
        readRes r.path = some (r.width, r.height) := by
  induction files with
  | nil => intro acc h; exact h
  | cons f fs ih =>
    intro acc h
    apply ih
    intro r hr
    cases hread : readRes f with
    | none =>
      simp only [scanStep, hread] at hr
      exact h r hr
    | some wh =>
      obtain ⟨w, hgt⟩ := wh
      simp only [scanStep, hread, List.mem_append, List.mem_singleton] at hr
      rcases hr with hr | hr
      · exact h r hr
      · subst hr
        simpa using hread

/-! ### Claim theorems about the scanner -/

/-- C1: an image is classified low-res iff its width is under 3840 or its
height is under 2160 (a disjunction): exactly 3840x2160 is high-res,
3840x2159 is low-res, 4000x1000 is low-res; and the scanner's low-res list
is exactly the below-4K filter of its all-images list. -/
theorem C1_low_res_classification :
    (∀ w h, is_below_4k w h = true ↔ (w < 3840 ∨ h < 2160)) ∧
    is_below_4k 3840 2160 = false ∧
    is_below_4k 3840 2159 = true ∧
    is_below_4k 4000 1000 = true ∧
    ∀ (readRes : FPath → Option (Nat × Nat)) (sizeOfFile : FPath → Nat)
      (files : List FPath),
      (find_low_res_images readRes sizeOfFile files).low_res_images
        = (find_low_res_images readRes sizeOfFile files).all_images.filter
            fun r => is_below_4k r.width r.height := by
  refine ⟨?_, by decide, by decide, by decide, ?_⟩
  · intro w h
    simp [is_below_4k, MIN_4K_WIDTH, MIN_4K_HEIGHT]
  · intro readRes sizeOfFile files
    exact scan_foldl_low_filter readRes sizeOfFile files ⟨[], [], []⟩ rfl

/-- C7: a file whose image read fails is excluded from all three scan
outputs and the scan continues: scanning a list with an unreadable file
inserted gives exactly the result of scanning the list without it, and
every record in the all-images output came from a successful read. -/
theorem C7_unreadable_file_excluded :
    (∀ (readRes : FPath → Option (Nat × Nat)) (sizeOfFile : FPath → Nat)
       (xs ys : List FPath) (bad : FPath),
      readRes bad = none →
      find_low_res_images readRes sizeOfFile (xs ++ bad :: ys)
        = find_low_res_images readRes sizeOfFile (xs ++ ys)) ∧
    ∀ (readRes : FPath → Option (Nat × Nat)) (sizeOfFile : FPath → Nat)
      (files : List FPath),
      ∀ r ∈ (find_low_res_images readRes sizeOfFile files).all_images,
        readRes r.path = some (r.width, r.height) := by
  constructor
  · intro readRes sizeOfFile xs ys bad hbad
    simp only [find_low_res_images, List.foldl_append, List.foldl_cons]
    simp [scanStep, hbad]
  · intro readRes sizeOfFile files
    exact scan_all_sound readRes sizeOfFile files ⟨[], [], []⟩ (by simp)

/-- C7 witness: inserting a concrete unreadable file into a concrete scan
leaves the scan result unchanged. -/
theorem C7_unreadable_file_excluded_witness :
    find_low_res_images
        (fun p => if p = ["g.png"] then some (1000, 1000) else none)
        (fun _ => 5) ([["g.png"]] ++ ["b.png"] :: [])
      = find_low_res_images
          (fun p => if p = ["g.png"] then some (1000, 1000) else none)
          (fun _ => 5) ([["g.png"]] ++ []) :=
  C7_unreadable_file_excluded.1
    (fun p => if p = ["g.png"] then some (1000, 1000) else none)
    (fun _ => 5) [["g.png"]] [] ["b.png"] (by decide)

/-- C10: the scanner's low-res list is a sublist of its all-images list
(hence a subset, in the same order, and never longer), and the histogram
bucket counts sum to the length of the all-images list. -/
theorem C10_scan_invariants (readRes : FPath → Option (Nat × Nat))
    (sizeOfFile : FPath → Nat) (files : List FPath) :
    (find_low_res_images readRes sizeOfFile files).low_res_images.Sublist
        (find_low_res_images readRes sizeOfFile files).all_images ∧
      (find_low_res_images readRes sizeOfFile files).low_res_images.length
        ≤ (find_low_res_images readRes sizeOfFile files).all_images.length ∧
      statSum (find_low_res_images readRes sizeOfFile files).resolution_stats
        = (find_low_res_images readRes sizeOfFile files).all_images.length := by
  obtain ⟨h1, h2⟩ :=
    scan_foldl_invariant readRes sizeOfFile files ⟨[], [], []⟩ (List.Sublist.refl _) rfl
  exact ⟨h1, h1.length_le, h2⟩

/-! ### Reporter, source lines 90-134 -/

/-- The sort key of source line 106: ascending pixel area. -/
def areaLe (a b : ImageRecord) : Prop :=
  a.width * a.height ≤ b.width * b.height

instance : DecidableRel areaLe := fun a b =>
  inferInstanceAs (Decidable (a.width * a.height ≤ b.width * b.height))

instance : IsTotal ImageRecord areaLe :=
  ⟨fun a b => Nat.le_total (a.width * a.height) (b.width * b.height)⟩

instance : IsTrans ImageRecord areaLe :=
  ⟨fun _ _ _ => Nat.le_trans⟩

/-- Source lines 90-134: what `display_results` does to its three inputs.
All printing aside, its one data effect is source line 106: when the
low-res list is nonempty it is sorted in place, stably, ascending by pixel
area (`low_res_images.sort` with key width times height); the all-images
list and the histogram are only read. The result triple is the value of
the three arguments after the call. -/
def display_results (low all : List ImageRecord) (stats : Histogram) :
    List ImageRecord × List ImageRecord × Histogram :=
  if low = [] then (low, all, stats)
  else (low.insertionSort areaLe, all, stats)

/-! ### Deleter, source lines 136-172 -/

/-- The aggregates of `delete_images`, source lines 138-141: the list it
returns plus its internal counters. -/
structure DeleteResult where
  deleted_images : List ImageRecord
  deleted_count : Nat
  failed_count : Nat
  total_size_freed : Nat
deriving DecidableEq

/-- Loop body of source lines 145-163 for one record: `unlinkOk` is the
oracle telling whether `img.path.unlink()` succeeds. On success the counter
and freed-size accumulate and the record is appended to the deleted list;
on exception only the failure counter moves, and the loop continues. -/
def deleteStep (unlinkOk : ImageRecord → Bool) (acc : DeleteResult)
    (img : ImageRecord) : DeleteResult :=
  if unlinkOk img then
    { acc with
      deleted_images := acc.deleted_images ++ [img]
      deleted_count := acc.deleted_count + 1
      total_size_freed := acc.total_size_freed + img.size }
  else
    { acc with failed_count := acc.failed_count + 1 }

/-- Source lines 136-172: delete the given records one by one, tolerating
per-file failures. -/
def delete_images (unlinkOk : ImageRecord → Bool)
    (images : List ImageRecord) : DeleteResult :=
  images.foldl (deleteStep unlinkOk) ⟨[], 0, 0, 0⟩

/-! ### Reporter and deleter lemmas -/

lemma delete_foldl (unlinkOk : ImageRecord → Bool) (images : List ImageRecord) :
    ∀ acc : DeleteResult,
      (images.foldl (deleteStep unlinkOk) acc).deleted_images
          = acc.deleted_images ++ images.filter (fun r => unlinkOk r) ∧
        (images.foldl (deleteStep unlinkOk) acc).failed_count
          = acc.failed_count + (images.filter fun r => !unlinkOk r).length ∧
        (images.foldl (deleteStep unlinkOk) acc).deleted_count
          = acc.deleted_count + (images.filter fun r => unlinkOk r).length := by
  induction images with
  | nil => intro acc; simp
  | cons img rest ih =>
    intro acc
    by_cases h : unlinkOk img <;>
      simp [deleteStep, h, ih, List.filter_cons] <;> omega

lemma length_filter_bool_split {α : Type} (p : α → Bool) (l : List α) :
    (l.filter p).length + (l.filter fun a => !p a).length = l.length := by
  induction l with
  | nil => simp
  | cons a rest ih =>
    by_cases h : p a <;> simp [List.filter_cons, h] <;> omega

/-! ### Claim theorems about reporter and deleter -/

/-- C3: a record appears in the deleted list exactly when its unlink
succeeded, failed unlinks are only counted, and every record is accounted
for (so deletions after a failure still proceed). -/
theorem C3_deleted_only_on_success (unlinkOk : ImageRecord → Bool)
    (images : List ImageRecord) :
    (delete_images unlinkOk images).deleted_images
        = images.filter (fun r => unlinkOk r) ∧
      (delete_images unlinkOk images).failed_count
        = (images.filter fun r => !unlinkOk r).length ∧
      (delete_images unlinkOk images).deleted_images.length
          + (delete_images unlinkOk images).failed_count
        = images.length ∧
      (delete_images unlinkOk images).deleted_count
        = (delete_images unlinkOk images).deleted_images.length := by
  obtain ⟨h1, h2, h3⟩ := delete_foldl unlinkOk images ⟨[], 0, 0, 0⟩
  refine ⟨by simpa using h1, by simpa using h2, ?_, ?_⟩
  · rw [delete_images, h1, h2]
    simpa using length_filter_bool_split (fun r => unlinkOk r) images
  · rw [delete_images, h1, h3]
    simp

/-- C4 as claimed is false: the reporter mutates its first input. On a
two-element low-res list whose first record has the larger pixel area,
`display_results` reorders the list in place, so the inputs are not all
unchanged. -/
theorem C4_counterexample :
    ¬ (display_results
          [⟨["b"], 4000, 3000, 10⟩, ⟨["s"], 10, 10, 1⟩] [] []
        = ([⟨["b"], 4000, 3000, 10⟩, ⟨["s"], 10, 10, 1⟩], [], [])) := by
  decide

/-- C4 amended: the reporter leaves the all-images list and the histogram
unchanged, and its only mutation is sorting the low-res list in place
ascending by pixel area — the resulting low-res list is a permutation of
the input, sorted by area. -/
theorem C4_reporter_effect (low all : List ImageRecord) (stats : Histogram) :
    (display_results low all stats).2.1 = all ∧
      (display_results low all stats).2.2 = stats ∧
      List.Perm (display_results low all stats).1 low ∧
      List.Sorted areaLe (display_results low all stats).1 := by
  unfold display_results
  by_cases h : low = []
  · subst h
    simp
  · simp [h, List.perm_insertionSort, List.sorted_insertionSort]

/-! ### Relocator per-file loop, source lines 217-278 -/

/-- ASCII lowercasing of one character, as Python's `str.lower` acts on
the ASCII responses the prompts compare against. -/
def charLower (c : Char) : Char :=
  if 65 ≤ c.toNat ∧ c.toNat ≤ 90 then Char.ofNat (c.toNat + 32) else c

/-- Whitespace as stripped by Python's `str.strip`. -/
def isSpaceChar (c : Char) : Bool :=
  c = ' ' || c = '\t' || c = '\n' || c = '\r'

/-- Drop leading and trailing whitespace characters. -/
def stripChars (l : List Char) : List Char :=
  ((l.dropWhile isSpaceChar).reverse.dropWhile isSpaceChar).reverse

/-- Python's `input(...).strip().lower()` normalisation of a response. -/
def lowerStrip (s : String) : String :=
  String.mk ((stripChars s.data).map charLower)

/-- Read one line from the interactive input stream; an exhausted stream
yields the empty response. -/
def readInput (inputs : List String) : String × List String :=
  match inputs with
  | [] => ("", [])
  | s :: rest => (s, rest)

/-- A file already present in the destination directory: the resolution
it yields to `get_image_resolution` (`none` when reading it raises,
source lines 26-33) and its `stat().st_size`. -/
structure DFile where
  res : Option (Nat × Nat)
  size : Nat
deriving DecidableEq

/-- The state threaded through the move loop of source lines 218-278:
the destination directory contents (an association list from file name to
file, first entry wins), the set of source files still present, the four
counters of lines 218-221, the sticky overwrite-all flag of line 222, and
the not-yet-consumed interactive responses. -/
structure MoveState where
  dest : List (String × DFile)
  srcFiles : List FPath
  moved : Nat
  failed : Nat
  skipped : Nat
  overwritten : Nat
  overwriteAll : Bool
  inputs : List String
deriving DecidableEq

/-- Effect of a successful `shutil.move(source_file, dest_file)`: the
source path disappears and the destination directory gains (or shadows)
a file of the record's name with the record's resolution and size; the
moved counter increments (source lines 246-247, 262-263, 266-267,
273-274). -/
def applyMove (st : MoveState) (r : ImageRecord) : MoveState :=
  { st with
    dest := (fileName r.path, ⟨some (r.width, r.height), r.size⟩) :: st.dest
    srcFiles := st.srcFiles.erase r.path
    moved := st.moved + 1 }

/-- Loop body of source lines 226-278 for one record. `moveOk` is the
oracle telling whether the `shutil.move` call for this record succeeds;
when it raises, the record is counted failed and the loop continues
(lines 276-278). If the destination has a same-named file whose
resolution and byte size both match, the record is skipped (lines
235-242). Otherwise, with the overwrite-all flag set the move happens
without prompting (lines 245-248); with it clear the user is prompted
(line 257): answer a sets the flag and moves, y or yes moves, anything
else skips (lines 259-270). Without a name collision the record is moved
unconditionally (lines 271-274). -/
def moveStep (moveOk : ImageRecord → Bool) (st : MoveState)
    (r : ImageRecord) : MoveState :=
  match st.dest.lookup (fileName r.path) with
  | some d =>
    if d.res = some (r.width, r.height) ∧ d.size = r.size then
      { st with skipped := st.skipped + 1 }
    else if st.overwriteAll then
      if moveOk r then
        { applyMove st r with overwritten := st.overwritten + 1 }
      else
        { st with failed := st.failed + 1 }
    else
      let action := lowerStrip (readInput st.inputs).1
      let st1 := { st with inputs := (readInput st.inputs).2 }
      if action = "a" then
        let st2 := { st1 with overwriteAll := true }
        if moveOk r then
          { applyMove st2 r with overwritten := st2.overwritten + 1 }
        else
          { st2 with failed := st2.failed + 1 }
      else if action = "y" ∨ action = "yes" then
        if moveOk r then
          { applyMove st1 r with overwritten := st1.overwritten + 1 }
        else
          { st1 with failed := st1.failed + 1 }
      else
        { st1 with skipped := st1.skipped + 1 }
  | none =>
    if moveOk r then applyMove st r
    else { st with failed := st.failed + 1 }

/-- The whole move loop of source lines 226-278 over a record list. -/
def moveRun (moveOk : ImageRecord → Bool) (st : MoveState)
    (recs : List ImageRecord) : MoveState :=
  recs.foldl (moveStep moveOk) st

/-- The state on entry to the move loop, source lines 218-222: all
counters zero and the overwrite-all flag clear. -/
def initMoveState (dest : List (String × DFile)) (srcFiles : List FPath)
    (inputs : List String) : MoveState :=
  ⟨dest, srcFiles, 0, 0, 0, 0, false, inputs⟩

/-! ### Relocator lemmas -/

lemma moveStep_sum (moveOk : ImageRecord → Bool) (st : MoveState)
    (r : ImageRecord) :
    (moveStep moveOk st r).moved + (moveStep moveOk st r).skipped
        + (moveStep moveOk st r).failed
      = st.moved + st.skipped + st.failed + 1 := by
  cases hd : st.dest.lookup (fileName r.path) with
  | none =>
    simp only [moveStep, hd]
    split_ifs <;> simp [applyMove] <;> omega
  | some d =>
    simp only [moveStep, hd]
    split_ifs <;> simp [applyMove] <;> omega

lemma moveStep_ow (moveOk : ImageRecord → Bool) (st : MoveState)
    (r : ImageRecord) (h : st.overwritten ≤ st.moved) :
    (moveStep moveOk st r).overwritten ≤ (moveStep moveOk st r).moved := by
  cases hd : st.dest.lookup (fileName r.path) with
  | none =>
    simp only [moveStep, hd]
    split_ifs <;> simp [applyMove] <;> omega
  | some d =>
    simp only [moveStep, hd]
    split_ifs <;> simp [applyMove] <;> omega

lemma moveRun_counters (moveOk : ImageRecord → Bool) (recs : List ImageRecord) :
    ∀ st : MoveState,
      (moveRun moveOk st recs).moved + (moveRun moveOk st recs).skipped
            + (moveRun moveOk st recs).failed
          = st.moved + st.skipped + st.failed + recs.length ∧
        (st.overwritten ≤ st.moved →
          (moveRun moveOk st recs).overwritten ≤ (moveRun moveOk st recs).moved) := by
  induction recs with
  | nil => intro st; simp [moveRun]
  | cons r rest ih =>
    intro st
    have hrun : moveRun moveOk st (r :: rest)
        = moveRun moveOk (moveStep moveOk st r) rest := rfl
    obtain ⟨ihsum, ihow⟩ := ih (moveStep moveOk st r)
    have hsum := moveStep_sum moveOk st r
    rw [hrun]
    constructor
    · rw [ihsum, hsum]
      simp [List.length_cons]
      omega
    · intro h
      exact ihow (moveStep_ow moveOk st r h)

lemma moveStep_sticky (moveOk : ImageRecord → Bool) (st : MoveState)
    (r : ImageRecord) (h : st.overwriteAll = true) :
    (moveStep moveOk st r).overwriteAll = true ∧
      (moveStep moveOk st r).inputs = st.inputs := by
  cases hd : st.dest.lookup (fileName r.path) with
  | none =>
    simp only [moveStep, hd]
    split_ifs <;> simp [applyMove, h]
  | some d =>
    simp only [moveStep, hd, h]
    split_ifs <;> simp [applyMove, h]

/-! ### Claim theorems about the relocator loop -/

/-- C2: when the destination directory already holds a same-named file
whose resolution and byte size both match the record, the move loop only
increments the skipped counter: the destination contents, the source
files, the other counters, the sticky flag and the input stream are
untouched (no overwrite, no move, no deletion of the source). -/
theorem C2_duplicate_is_skipped (moveOk : ImageRecord → Bool)
    (st : MoveState) (r : ImageRecord) (d : DFile)
    (hl : st.dest.lookup (fileName r.path) = some d)
    (hres : d.res = some (r.width, r.height))
    (hsize : d.size = r.size) :
    moveStep moveOk st r = { st with skipped := st.skipped + 1 } := by
  simp [moveStep, hl, hres, hsize]

/-- C2 witness: a concrete duplicate record is skipped. -/
theorem C2_duplicate_is_skipped_witness :
    moveStep (fun _ => true)
        (initMoveState [("f.png", ⟨some (3840, 2160), 99⟩)] [["d", "f.png"]] [])
        ⟨["d", "f.png"], 3840, 2160, 99⟩
      = { initMoveState [("f.png", ⟨some (3840, 2160), 99⟩)] [["d", "f.png"]] [] with
          skipped :=
            (initMoveState [("f.png", ⟨some (3840, 2160), 99⟩)] [["d", "f.png"]] []).skipped
              + 1 } :=
  C2_duplicate_is_skipped (fun _ => true) _ _ ⟨some (3840, 2160), 99⟩
    (by decide) (by decide) (by decide)

/-- C6: the overwrite-all flag is sticky within a run. Once set, the whole
remaining run keeps it set and consumes no interactive input; a name
collision with differing content is then overwritten automatically when
the move call succeeds; and answering a at a conflict prompt is what sets
the flag. -/
theorem C6_sticky_overwrite_all :
    (∀ (moveOk : ImageRecord → Bool) (st : MoveState) (recs : List ImageRecord),
        st.overwriteAll = true →
        (moveRun moveOk st recs).overwriteAll = true ∧
          (moveRun moveOk st recs).inputs = st.inputs) ∧
      (∀ (moveOk : ImageRecord → Bool) (st : MoveState) (r : ImageRecord) (d : DFile),
        st.overwriteAll = true →
        st.dest.lookup (fileName r.path) = some d →
        ¬(d.res = some (r.width, r.height) ∧ d.size = r.size) →
        moveOk r = true →
        moveStep moveOk st r
          = { applyMove st r with overwritten := st.overwritten + 1 }) ∧
      ∀ (moveOk : ImageRecord → Bool) (st : MoveState) (r : ImageRecord) (d : DFile),
        st.overwriteAll = false →
        st.dest.lookup (fileName r.path) = some d →
        ¬(d.res = some (r.width, r.height) ∧ d.size = r.size) →
        lowerStrip (readInput st.inputs).1 = "a" →
        (moveStep moveOk st r).overwriteAll = true := by
  refine ⟨?_, ?_, ?_⟩
  · intro moveOk st recs
    induction recs generalizing st with
    | nil => intro h; exact ⟨h, rfl⟩
    | cons r rest ih =>
      intro h
      obtain ⟨h1, h2⟩ := moveStep_sticky moveOk st r h
      obtain ⟨h3, h4⟩ := ih (moveStep moveOk st r) h1
      exact ⟨h3, by rw [moveRun] at h4 ⊢; simp only [List.foldl_cons]; rw [h4, h2]⟩
  · intro moveOk st r d hflag hl hdiff hok
    simp [moveStep, hl, hdiff, hflag, hok]
  · intro moveOk st r d hflag hl hdiff ha
    simp only [moveStep, hl, hdiff, hflag, ha]
    split_ifs <;> simp_all [applyMove]

/-- C6 witness: with the flag already set, a one-record run leaves the
flag set and reads no input; and answering a at a concrete conflict
prompt sets the flag. -/
theorem C6_sticky_overwrite_all_witness :
    ((moveRun (fun _ => true)
          ⟨[("f.png", ⟨some (1, 1), 5⟩)], [], 0, 0, 0, 0, true, ["x"]⟩
          [⟨["f.png"], 2, 2, 7⟩]).overwriteAll = true ∧
        (moveRun (fun _ => true)
          ⟨[("f.png", ⟨some (1, 1), 5⟩)], [], 0, 0, 0, 0, true, ["x"]⟩
          [⟨["f.png"], 2, 2, 7⟩]).inputs = ["x"]) ∧
      (moveStep (fun _ => true)
          ⟨[("f.png", ⟨some (1, 1), 5⟩)], [], 0, 0, 0, 0, false, ["a"]⟩
          ⟨["f.png"], 2, 2, 7⟩).overwriteAll = true :=
  ⟨C6_sticky_overwrite_all.1 (fun _ => true)
      ⟨[("f.png", ⟨some (1, 1), 5⟩)], [], 0, 0, 0, 0, true, ["x"]⟩
      [⟨["f.png"], 2, 2, 7⟩] rfl,
    C6_sticky_overwrite_all.2.2 (fun _ => true)
      ⟨[("f.png", ⟨some (1, 1), 5⟩)], [], 0, 0, 0, 0, false, ["a"]⟩
      ⟨["f.png"], 2, 2, 7⟩ ⟨some (1, 1), 5⟩ rfl (by decide) (by decide) (by decide)⟩

/-- C9: over a whole relocation run from the initial counters, every
record increments exactly one of moved, skipped or failed — their sum
equals the number of input records — and the overwritten counter never
exceeds the moved counter; each single step raises the sum by exactly
one. -/
theorem C9_move_counter_invariants (moveOk : ImageRecord → Bool)
    (dest : List (String × DFile)) (srcFiles : List FPath)
    (inputs : List String) (recs : List ImageRecord) :
    (moveRun moveOk (initMoveState dest srcFiles inputs) recs).moved
          + (moveRun moveOk (initMoveState dest srcFiles inputs) recs).skipped
          + (moveRun moveOk (initMoveState dest srcFiles inputs) recs).failed
        = recs.length ∧
      (moveRun moveOk (initMoveState dest srcFiles inputs) recs).overwritten
        ≤ (moveRun moveOk (initMoveState dest srcFiles inputs) recs).moved ∧
      ∀ (st : MoveState) (r : ImageRecord),
        (moveStep moveOk st r).moved + (moveStep moveOk st r).skipped
            + (moveStep moveOk st r).failed
          = st.moved + st.skipped + st.failed + 1 := by
  obtain ⟨h1, h2⟩ := moveRun_counters moveOk recs (initMoveState dest srcFiles inputs)
  refine ⟨by simpa [initMoveState] using h1, h2 (by simp [initMoveState]), ?_⟩
  intro st r
  exact moveStep_sum moveOk st r

/-! ### Directory cleanup after the moves, source lines 280-293 -/

/-- The filesystem as the cleanup pass sees it, right after the moves:
which file paths and which directory paths exist under the scan tree. -/
structure FS where
  files : List FPath
  dirs : List FPath
deriving DecidableEq

/-- A directory is empty when no existing file or directory has it as its
parent — the `not any(parent_dir.iterdir())` check of source line 288. -/
def EmptyDir (fs : FS) (d : FPath) : Prop :=
  (∀ f ∈ fs.files, parentOf f ≠ d) ∧ ∀ e ∈ fs.dirs, parentOf e ≠ d

instance (fs : FS) (d : FPath) : Decidable (EmptyDir fs d) :=
  inferInstanceAs
    (Decidable ((∀ f ∈ fs.files, parentOf f ≠ d) ∧ ∀ e ∈ fs.dirs, parentOf e ≠ d))

/-- Executable form of the emptiness check. -/
def isEmptyDir (fs : FS) (d : FPath) : Bool :=
  decide (EmptyDir fs d)

/-- Loop body of source lines 283-293 for one record: its original parent
directory is removed when it differs from the scan root, still exists, and
is empty; `removable` is the oracle for the `rmdir` call succeeding, and
any failure is swallowed by the bare `except: pass`, leaving the
filesystem as it was and the loop running. -/
def cleanupStep (removable : FPath → Bool) (root : FPath) (fs : FS)
    (r : ImageRecord) : FS :=
  let p := parentOf r.path
  if p ≠ root ∧ p ∈ fs.dirs then
    if isEmptyDir fs p && removable p then
      { fs with dirs := fs.dirs.filter (fun e => decide (e ≠ p)) }
    else fs
  else fs

/-- The whole cleanup pass of source lines 283-293 over the move loop's
record list. -/
def cleanupRun (removable : FPath → Bool) (root : FPath) (fs : FS)
    (recs : List ImageRecord) : FS :=
  recs.foldl (cleanupStep removable root) fs

/-! ### Cleanup lemmas -/

lemma cleanupStep_files (removable : FPath → Bool) (root : FPath) (fs : FS)
    (r : ImageRecord) : (cleanupStep removable root fs r).files = fs.files := by
  simp only [cleanupStep]
  split_ifs <;> rfl

lemma cleanupRun_files (removable : FPath → Bool) (root : FPath)
    (recs : List ImageRecord) : ∀ fs : FS,
    (cleanupRun removable root fs recs).files = fs.files := by
  induction recs with
  | nil => intro fs; rfl
  | cons a rest ih =>
    intro fs
    show (cleanupRun removable root (cleanupStep removable root fs a) rest).files
      = fs.files
    rw [ih, cleanupStep_files]

lemma cleanupStep_dirs_mem (removable : FPath → Bool) (root : FPath) (fs : FS)
    (r : ImageRecord) (d : FPath)
    (hd : d ∈ (cleanupStep removable root fs r).dirs) : d ∈ fs.dirs := by
  simp only [cleanupStep] at hd
  split_ifs at hd
  · exact List.mem_of_mem_filter hd
  · exact hd
  · exact hd

lemma cleanupRun_dirs_mem (removable : FPath → Bool) (root : FPath)
    (recs : List ImageRecord) : ∀ (fs : FS) (d : FPath),
    d ∈ (cleanupRun removable root fs recs).dirs → d ∈ fs.dirs := by
  induction recs with
  | nil => intro fs d hd; exact hd
  | cons a rest ih =>
    intro fs d hd
    exact cleanupStep_dirs_mem removable root fs a d (ih _ d hd)

lemma cleanupRun_notmem_mono (removable : FPath → Bool) (root : FPath)
    (recs : List ImageRecord) (fs : FS) (d : FPath) (h : d ∉ fs.dirs) :
    d ∉ (cleanupRun removable root fs recs).dirs :=
  fun hc => h (cleanupRun_dirs_mem removable root recs fs d hc)

lemma cleanupStep_empty_mono (removable : FPath → Bool) (root : FPath)
    (fs : FS) (r : ImageRecord) (d : FPath) (h : EmptyDir fs d) :
    EmptyDir (cleanupStep removable root fs r) d := by
  obtain ⟨h1, h2⟩ := h
  constructor
  · intro f hf
    rw [cleanupStep_files] at hf
    exact h1 f hf
  · intro e he
    exact h2 e (cleanupStep_dirs_mem removable root fs r e he)

lemma cleanupRun_empty_mono (removable : FPath → Bool) (root : FPath)
    (recs : List ImageRecord) : ∀ (fs : FS) (d : FPath), EmptyDir fs d →
    EmptyDir (cleanupRun removable root fs recs) d := by
  induction recs with
  | nil => intro fs d h; exact h
  | cons a rest ih =>
    intro fs d h
    exact ih _ d (cleanupStep_empty_mono removable root fs a d h)

lemma cleanupStep_removed_was_empty (removable : FPath → Bool) (root : FPath)
    (fs : FS) (r : ImageRecord) (d : FPath) (hd : d ∈ fs.dirs)
    (hnd : d ∉ (cleanupStep removable root fs r).dirs) : EmptyDir fs d := by
  simp only [cleanupStep] at hnd
  split_ifs at hnd with h1 h2
  · by_cases hdp : d = parentOf r.path
    · subst hdp
      have h2' := h2
      rw [Bool.and_eq_true] at h2'
      exact of_decide_eq_true h2'.1
    · exfalso
      apply hnd
      rw [List.mem_filter]
      exact ⟨hd, decide_eq_true hdp⟩
  · exact absurd hd hnd
  · exact absurd hd hnd

lemma cleanupRun_removed_was_empty (removable : FPath → Bool) (root : FPath)
    (recs : List ImageRecord) : ∀ (fs : FS) (d : FPath), d ∈ fs.dirs →
    d ∉ (cleanupRun removable root fs recs).dirs →
    EmptyDir (cleanupRun removable root fs recs) d := by
  induction recs with
  | nil => intro fs d hd hnd; exact absurd hd hnd
  | cons a rest ih =>
    intro fs d hd hnd
    have hstep : cleanupRun removable root fs (a :: rest)
        = cleanupRun removable root (cleanupStep removable root fs a) rest := rfl
    rw [hstep] at hnd ⊢
    by_cases h' : d ∈ (cleanupStep removable root fs a).dirs
    · exact ih _ d h' hnd
    · have hemp : EmptyDir fs d :=
        cleanupStep_removed_was_empty removable root fs a d hd h'
      exact cleanupRun_empty_mono removable root rest _ d
        (cleanupStep_empty_mono removable root fs a d hemp)

lemma cleanupStep_unremovable (removable : FPath → Bool) (root : FPath)
    (fs : FS) (r : ImageRecord) (d : FPath) (hrm : removable d = false) :
    d ∈ (cleanupStep removable root fs r).dirs ↔ d ∈ fs.dirs := by
  simp only [cleanupStep]
  split_ifs with h1 h2
  · rw [List.mem_filter]
    constructor
    · exact fun h => h.1
    · intro h
      refine ⟨h, decide_eq_true ?_⟩
      intro he
      have h2' := h2
      rw [Bool.and_eq_true] at h2'
      have : removable (parentOf r.path) = true := h2'.2
      rw [← he, hrm] at this
      exact Bool.false_ne_true this
  · exact Iff.rfl
  · exact Iff.rfl

lemma cleanupRun_unremovable (removable : FPath → Bool) (root : FPath)
    (recs : List ImageRecord) : ∀ (fs : FS) (d : FPath), removable d = false →
    (d ∈ (cleanupRun removable root fs recs).dirs ↔ d ∈ fs.dirs) := by
  induction recs with
  | nil => intro fs d _; exact Iff.rfl
  | cons a rest ih =>
    intro fs d hrm
    exact (ih _ d hrm).trans (cleanupStep_unremovable removable root fs a d hrm)

lemma cleanupRun_removes (removable : FPath → Bool) (root : FPath)
    (recs : List ImageRecord) : ∀ (fs : FS) (r : ImageRecord), r ∈ recs →
    parentOf r.path ≠ root → removable (parentOf r.path) = true →
    EmptyDir fs (parentOf r.path) → parentOf r.path ∈ fs.dirs →
    parentOf r.path ∉ (cleanupRun removable root fs recs).dirs := by
  induction recs with
  | nil => intro fs r h; simp at h
  | cons a rest ih =>
    intro fs r hr hroot hrm hempty hmem
    have hstep : cleanupRun removable root fs (a :: rest)
        = cleanupRun removable root (cleanupStep removable root fs a) rest := rfl
    rw [hstep]
    rcases List.mem_cons.mp hr with he | hrest
    · subst he
      have hrem : parentOf r.path ∉ (cleanupStep removable root fs r).dirs := by
        have hb : (isEmptyDir fs (parentOf r.path)
            && removable (parentOf r.path)) = true := by
          rw [Bool.and_eq_true]
          exact ⟨decide_eq_true hempty, hrm⟩
        simp only [cleanupStep, if_pos (And.intro hroot hmem), hb, if_true,
          List.mem_filter]
        intro hc
        exact absurd rfl (of_decide_eq_true hc.2)
      exact cleanupRun_notmem_mono removable root rest _ _ hrem
    · by_cases hmem' : parentOf r.path ∈ (cleanupStep removable root fs a).dirs
      · exact ih _ r hrest hroot hrm
          (cleanupStep_empty_mono removable root fs a _ hempty) hmem'
      · exact cleanupRun_notmem_mono removable root rest _ _ hmem'

/-! ### Claim theorem about the cleanup -/

/-- C5: after the cleanup pass over all records, no file is touched; every
record's original parent directory other than the scan root that was left
empty by the moves (and whose removal succeeds) is gone; any directory
that disappeared was empty — equivalently, directories still holding
entries are untouched; and a directory whose removal fails is left exactly
as it was, the pass carrying on regardless. -/
theorem C5_empty_parent_dirs_removed :
    (∀ (removable : FPath → Bool) (root : FPath) (recs : List ImageRecord)
       (fs : FS), (cleanupRun removable root fs recs).files = fs.files) ∧
      (∀ (removable : FPath → Bool) (root : FPath) (recs : List ImageRecord)
         (fs : FS) (r : ImageRecord), r ∈ recs →
        parentOf r.path ≠ root → removable (parentOf r.path) = true →
        EmptyDir fs (parentOf r.path) → parentOf r.path ∈ fs.dirs →
        parentOf r.path ∉ (cleanupRun removable root fs recs).dirs) ∧
      (∀ (removable : FPath → Bool) (root : FPath) (recs : List ImageRecord)
         (fs : FS) (d : FPath), d ∈ fs.dirs →
        d ∉ (cleanupRun removable root fs recs).dirs →
        EmptyDir (cleanupRun removable root fs recs) d) ∧
      ∀ (removable : FPath → Bool) (root : FPath) (recs : List ImageRecord)
        (fs : FS) (d : FPath), removable d = false →
        (d ∈ (cleanupRun removable root fs recs).dirs ↔ d ∈ fs.dirs) := by
  refine ⟨?_, ?_, ?_, ?_⟩
  · intro removable root recs fs
    exact cleanupRun_files removable root recs fs
  · intro removable root recs fs r hr hroot hrm hempty hmem
    exact cleanupRun_removes removable root recs fs r hr hroot hrm hempty hmem
  · intro removable root recs fs d hd hnd
    exact cleanupRun_removed_was_empty removable root recs fs d hd hnd
  · intro removable root recs fs d hrm
    exact cleanupRun_unremovable removable root recs fs d hrm

/-- C5 witness: a concrete empty source subdirectory containing one moved
record's original location is removed by the cleanup pass. -/
theorem C5_empty_parent_dirs_removed_witness :
    ["sub"] ∉ (cleanupRun (fun _ => true) [] ⟨[], [["sub"]]⟩
        [⟨["sub", "img.png"], 4000, 3000, 5⟩]).dirs :=
  C5_empty_parent_dirs_removed.2.1 (fun _ => true) [] [⟨["sub", "img.png"], 4000, 3000, 5⟩]
    ⟨[], [["sub"]]⟩ ⟨["sub", "img.png"], 4000, 3000, 5⟩
    (by decide) (by decide) rfl (by decide) (by decide)

/-! ### Delete-confirmation gate in main, source lines 335-353 -/

/-- The re-prompt loop of source lines 343-353 over the stream of typed
responses: y or yes (normalised) proceeds, n, no or the empty string
cancels, anything else re-prompts on the next response; an exhausted
stream means the loop is still waiting. -/
def confirmLoop : List String → Option Bool
  | [] => none
  | s :: rest =>
    let r := lowerStrip s
    if r = "y" ∨ r = "yes" then some true
    else if r = "n" ∨ r = "no" ∨ r = "" then some false
    else confirmLoop rest

/-- Source lines 337-353: with the auto-delete flag the confirmation is
skipped and deletion proceeds as if confirmed; otherwise the prompt loop
decides. -/
def deleteGate (autoDelete : Bool) (inputs : List String) : Option Bool :=
  if autoDelete then some true else confirmLoop inputs

/-- The deleted-images outcome of the confirmation phase of main: records
are deleted only when the gate confirms, else nothing is deleted (source
lines 336-353). -/
def deletePhase (autoDelete : Bool) (inputs : List String)
    (unlinkOk : ImageRecord → Bool) (lowRes : List ImageRecord) :
    List ImageRecord :=
  match deleteGate autoDelete inputs with
  | some true => (delete_images unlinkOk lowRes).deleted_images
  | _ => []

/-- C8: the delete-confirmation gate accepts y or yes (after trimming and
lowercasing) to proceed, n, no or the empty string to cancel with nothing
deleted, re-prompts on anything else, and is skipped entirely — deletion
proceeding as if confirmed — when the auto-delete flag is supplied. -/
theorem C8_delete_confirmation_gate :
    (∀ inputs : List String, deleteGate true inputs = some true) ∧
      (∀ (inputs : List String) (unlinkOk : ImageRecord → Bool)
         (lowRes : List ImageRecord),
        deletePhase true inputs unlinkOk lowRes
          = (delete_images unlinkOk lowRes).deleted_images) ∧
      (∀ (s : String) (rest : List String),
        lowerStrip s = "y" ∨ lowerStrip s = "yes" →
        confirmLoop (s :: rest) = some true) ∧
      (∀ (s : String) (rest : List String),
        lowerStrip s = "n" ∨ lowerStrip s = "no" ∨ lowerStrip s = "" →
        confirmLoop (s :: rest) = some false) ∧
      (∀ (s : String) (rest : List String),
        ¬(lowerStrip s = "y" ∨ lowerStrip s = "yes") →
        ¬(lowerStrip s = "n" ∨ lowerStrip s = "no" ∨ lowerStrip s = "") →
        confirmLoop (s :: rest) = confirmLoop rest) ∧
      ∀ (autoDelete : Bool) (inputs : List String)
        (unlinkOk : ImageRecord → Bool) (lowRes : List ImageRecord),
        deleteGate autoDelete inputs = some false →
        deletePhase autoDelete inputs unlinkOk lowRes = [] := by
  refine ⟨?_, ?_, ?_, ?_, ?_, ?_⟩
  · intro inputs
    rfl
  · intro inputs unlinkOk lowRes
    rfl
  · intro s rest h
    simp [confirmLoop, h]
  · intro s rest h
    have hn : ¬(lowerStrip s = "y" ∨ lowerStrip s = "yes") := by
      rintro (hy | hy) <;> rcases h with h | h | h <;> simp [hy] at h
    simp [confirmLoop, hn, h]
  · intro s rest hy hn
    simp [confirmLoop, hy, hn]
  · intro autoDelete inputs unlinkOk lowRes h
    simp [deletePhase, h]

/-- C8 witness: the gate on concrete inputs — auto-delete skips the
prompt, a trimmed uppercase YES proceeds, an empty response cancels, and
an unrecognised response falls through to the next one. -/
theorem C8_delete_confirmation_gate_witness :
    deleteGate true ["whatever"] = some true ∧
      confirmLoop (" YES " :: ["x"]) = some true ∧
      confirmLoop ("" :: ["x"]) = some false ∧
      confirmLoop ("q" :: ["no"]) = confirmLoop ["no"] :=
  ⟨C8_delete_confirmation_gate.1 ["whatever"],
    C8_delete_confirmation_gate.2.2.1 " YES " ["x"] (Or.inr (by decide)),
    C8_delete_confirmation_gate.2.2.2.1 "" ["x"] (Or.inr (Or.inr (by decide))),
    C8_delete_confirmation_gate.2.2.2.2.1 "q" ["no"] (by decide) (by decide)⟩

end FindLowRes
